import Mathlib

/-!
Verification of the Black-Scholes S&P 500 analyzer (src/sourcecode.py).

The numeric pipeline runs on NumPy/pandas float64 values: `S` comes from a
pandas column (`.iloc[-1]`), `sigma` from `Series.std()`.  For such values a
division by zero does not raise; it produces `inf`/`-inf`/`nan` (with a
runtime warning), `norm.cdf(inf) = 1`, `norm.cdf(nan) = nan`, and pandas
`Series.std()` (ddof = 1, skipna = True) returns `nan` when fewer than two
numeric observations remain.  We therefore embed float64 values as an
inductive type `FloatV` over exact reals: a finite value `fin x` (ignoring
rounding error and overflow, as usual for an exact-real embedding), the two
infinities, and `nan`.  The arithmetic below follows the IEEE-754 rules used
by NumPy for these four classes (the sign of zero is not modelled; all zero
denominators arising in this program are `+0`).
-/

noncomputable section

open MeasureTheory intervalIntegral Set

/-- A float64 value: finite (exact real payload), positive infinity,
negative infinity, or NaN. -/
inductive FloatV where
  | fin (x : ℝ)
  | inf
  | ninf
  | nan

namespace FloatV

/-- Addition on float64 classes. -/
def fadd : FloatV → FloatV → FloatV
  | nan, _ => nan
  | _, nan => nan
  | fin x, fin y => fin (x + y)
  | fin _, inf => inf
  | inf, fin _ => inf
  | fin _, ninf => ninf
  | ninf, fin _ => ninf
  | inf, inf => inf
  | ninf, ninf => ninf
  | inf, ninf => nan
  | ninf, inf => nan

/-- Negation on float64 classes. -/
def fneg : FloatV → FloatV
  | fin x => fin (-x)
  | inf => ninf
  | ninf => inf
  | nan => nan

/-- Subtraction `a - b = a + (-b)` (IEEE subtraction). -/
def fsub (a b : FloatV) : FloatV := fadd a (fneg b)

/-- Multiplication on float64 classes (`0 * inf = nan`). -/
def fmul : FloatV → FloatV → FloatV
  | nan, _ => nan
  | _, nan => nan
  | fin x, fin y => fin (x * y)
  | fin x, inf => if 0 < x then inf else if x < 0 then ninf else nan
  | inf, fin x => if 0 < x then inf else if x < 0 then ninf else nan
  | fin x, ninf => if 0 < x then ninf else if x < 0 then inf else nan
  | ninf, fin x => if 0 < x then ninf else if x < 0 then inf else nan
  | inf, inf => inf
  | ninf, ninf => inf
  | inf, ninf => ninf
  | ninf, inf => ninf

/-- Division on float64 classes.  A finite nonzero value divided by (+)0
gives a signed infinity, `0/0` gives `nan`; every zero denominator reached
in this program is `+0`. -/
def fdiv : FloatV → FloatV → FloatV
  | nan, _ => nan
  | _, nan => nan
  | fin x, fin y =>
      if y = 0 then (if x = 0 then nan else if 0 < x then inf else ninf)
      else fin (x / y)
  | fin _, inf => fin 0
  | fin _, ninf => fin 0
  | inf, fin y => if 0 ≤ y then inf else ninf
  | ninf, fin y => if 0 ≤ y then ninf else inf
  | inf, inf => nan
  | inf, ninf => nan
  | ninf, inf => nan
  | ninf, ninf => nan

/-- The square `v ** 2` (Python exponentiation with exponent 2). -/
def fsq : FloatV → FloatV
  | fin x => fin (x ^ 2)
  | inf => inf
  | ninf => inf
  | nan => nan

/-- `sqrt` (math.sqrt / numpy.sqrt); negative arguments give `nan`
(the numpy behaviour; never reached here since `T = 30/365`). -/
def fsqrt : FloatV → FloatV
  | fin x => if 0 ≤ x then fin (Real.sqrt x) else nan
  | inf => inf
  | ninf => nan
  | nan => nan

/-- `exp` on float64 classes (overflow to `inf` is not modelled for finite
arguments, in keeping with the exact-real payload). -/
def fexp : FloatV → FloatV
  | fin x => fin (Real.exp x)
  | inf => inf
  | ninf => fin 0
  | nan => nan

/-- `log` on float64 classes: `log 0 = -inf`, `log` of a negative number is
`nan` (numpy semantics with a warning). -/
def flog : FloatV → FloatV
  | fin x => if 0 < x then fin (Real.log x) else if x = 0 then ninf else nan
  | inf => inf
  | ninf => nan
  | nan => nan

/-- Strict comparison `a > b` as evaluated by Python: any comparison with
`nan` is false. -/
def fgt : FloatV → FloatV → Bool
  | nan, _ => false
  | _, nan => false
  | fin x, fin y => decide (y < x)
  | inf, fin _ => true
  | fin _, inf => false
  | inf, inf => false
  | ninf, fin _ => false
  | fin _, ninf => true
  | ninf, inf => false
  | inf, ninf => true
  | ninf, ninf => false

/-- Is this value NaN? -/
def isNaN : FloatV → Bool
  | nan => true
  | _ => false

/-- Is this value finite? -/
def isFin : FloatV → Bool
  | fin _ => true
  | _ => false

/-- The real payload of a finite value (0 otherwise; only applied under an
`isFin` guard). -/
def toRealD : FloatV → ℝ
  | fin x => x
  | _ => 0

end FloatV

open FloatV

/-- The standard normal density integrand `exp (-x²/2)`, written in the
`-b * x ^ 2` shape of the Gaussian integral. -/
def gauss (t : ℝ) : ℝ := Real.exp (-(1 / 2) * t ^ 2)

/-- The standard normal cumulative distribution `Φ` (the mathematical
function that `scipy.stats.norm.cdf` evaluates). -/
def Phi (x : ℝ) : ℝ := (Real.sqrt (2 * Real.pi))⁻¹ * ∫ t in Iic x, gauss t

/-- The standard normal density `φ` (the mathematical function that
`scipy.stats.norm.pdf` evaluates). -/
def phiPDF (x : ℝ) : ℝ := (Real.sqrt (2 * Real.pi))⁻¹ * gauss x

/-- `scipy.stats.norm.cdf` on float64 classes: `cdf inf = 1`,
`cdf (-inf) = 0`, `cdf nan = nan`. -/
def fcdf : FloatV → FloatV
  | .fin x => .fin (Phi x)
  | .inf => .fin 1
  | .ninf => .fin 0
  | .nan => .nan

/-- `scipy.stats.norm.pdf` on float64 classes: the density vanishes at the
infinities, `pdf nan = nan`. -/
def fpdf : FloatV → FloatV
  | .fin x => .fin (phiPDF x)
  | .inf => .fin 0
  | .ninf => .fin 0
  | .nan => .nan

/-- src/sourcecode.py lines 18-33, `black_scholes_call(S, K, T, r, sigma)`:
`d1 = (log(S / K) + (r + 0.5 * sigma**2) * T) / (sigma * sqrt(T))`,
`d2 = d1 - sigma * sqrt(T)`,
`call_price = S * norm.cdf(d1) - K * exp(-r * T) * norm.cdf(d2)`,
returning `(call_price, norm.cdf(d1), S * norm.pdf(d1) * sqrt(T))`.
There is no guard on `sigma` or `T`; the division is performed as written,
with float64 semantics. -/
def black_scholes_call (S K T r sigma : FloatV) : FloatV × FloatV × FloatV :=
  let d1 := fdiv (fadd (flog (fdiv S K)) (fmul (fadd r (fmul (.fin 0.5) (fsq sigma))) T))
      (fmul sigma (fsqrt T))
  let d2 := fsub d1 (fmul sigma (fsqrt T))
  let call_price := fsub (fmul S (fcdf d1)) (fmul (fmul K (fexp (fmul (fneg r) T))) (fcdf d2))
  (call_price, fcdf d1, fmul (fmul S (fpdf d1)) (fsqrt T))

/-- The real-number value of `d1` on the all-finite path (the expression of
line 30 over exact reals). -/
def d1R (S K T r sigma : ℝ) : ℝ :=
  (Real.log (S / K) + (r + 0.5 * sigma ^ 2) * T) / (sigma * Real.sqrt T)

/-- The real-number value of `d2` on the all-finite path (line 31). -/
def d2R (S K T r sigma : ℝ) : ℝ := d1R S K T r sigma - sigma * Real.sqrt T

/-- The real-number call price on the all-finite path (line 32). -/
def callR (S K T r sigma : ℝ) : ℝ :=
  S * Phi (d1R S K T r sigma) - K * Real.exp (-r * T) * Phi (d2R S K T r sigma)

/-- The real-number vega output on the all-finite path (line 33). -/
def vegaR (S K T r sigma : ℝ) : ℝ := S * phiPDF (d1R S K T r sigma) * Real.sqrt T

/-- Outcome of the FRED request in `fetch_risk_free_rate` (lines 38-47):
either HTTP 200 with a parsed latest observation value, or any non-200
status (the provider signalling unavailability). -/
inductive FredResponse where
  | ok (value : ℝ)
  | unavailable

/-- src/sourcecode.py lines 38-47, `fetch_risk_free_rate()`: on success the
latest value divided by 100; otherwise `st.warning(...)` and the default
`0.05`.  The first component collects the warnings shown to the user. -/
def fetch_risk_free_rate : FredResponse → List String × ℝ
  | .ok v => ([], v / 100)
  | .unavailable => (["Failed to fetch risk-free rate from FRED API."], 0.05)

/-- The pandas DataFrame handled by the pipeline: the `adj_close` column
(finite float64 prices, ascending by date) and the `log_return` column once
`calculate_volatility` has added it.  Mutation of the frame is modelled by
explicit state passing: functions that mutate it return the updated frame. -/
structure Frame where
  adj_close : List ℝ
  log_return : Option (List FloatV) := none

/-- `df['adj_close'] / df['adj_close'].shift(1)`: the first entry is `nan`
(shift introduces a leading NaN), then elementwise float64 division of each
price by its predecessor. -/
def shiftRatios : List ℝ → List FloatV
  | [] => []
  | p :: ps => .nan :: ((p :: ps).zip ps).map (fun ab => fdiv (.fin ab.2) (.fin ab.1))

/-- The mean of a list of reals (`Σ/n`). -/
def meanR (xs : List ℝ) : ℝ := xs.sum / xs.length

/-- Sample standard deviation with `ddof = 1` over exact reals:
`sqrt (Σ (x - mean)² / (n - 1))`. -/
def sampleStdR (xs : List ℝ) : ℝ :=
  Real.sqrt ((xs.map (fun x => (x - meanR xs) ^ 2)).sum / (xs.length - 1))

/-- pandas `Series.std()` (default `ddof = 1`, `skipna = True`): NaN entries
are dropped; fewer than two remaining observations give `nan`; a remaining
infinity also gives `nan` (through `inf - inf` arithmetic); otherwise the
sample standard deviation of the finite values. -/
def seriesStd (xs : List FloatV) : FloatV :=
  let v := xs.filter (fun a => !(isNaN a))
  if v.length < 2 then .nan
  else if v.all isFin then .fin (sampleStdR (v.map toRealD)) else .nan

/-- src/sourcecode.py lines 70-73, `calculate_volatility(df)`: assigns
`df['log_return'] = np.log(df['adj_close'] / df['adj_close'].shift(1))`
(mutating the frame), then returns `df['log_return'].std() * np.sqrt(252)`.
The mutated frame is returned alongside the result. -/
def calculate_volatility (df : Frame) : Frame × FloatV :=
  let col := (shiftRatios df.adj_close).map flog
  ({ adj_close := df.adj_close, log_return := some col },
    fmul (seriesStd col) (.fin (Real.sqrt 252)))

/-- The daily log returns `ln (P_t / P_{t-1})` of a price list, over exact
reals (the finite payloads of the `log_return` column for positive prices). -/
def logReturnsR (p : List ℝ) : List ℝ :=
  (p.zip p.tail).map (fun ab => Real.log (ab.2 / ab.1))

/-- Round-half-even to an integer (the tie-breaking rule of Python 3
`round`). -/
def roundHalfEven (x : ℝ) : ℤ :=
  if Int.fract x = 1 / 2 then 2 * round (x / 2) else round x

/-- Python 3 `round(x, n)` over exact reals: round-half-even at the `n`-th
decimal digit. -/
def pyRound (x : ℝ) (n : ℕ) : ℝ := (roundHalfEven (x * 10 ^ n) : ℝ) / 10 ^ n

/-- `round(v, n)` on float64 classes: finite values are rounded, the
infinities and `nan` are returned unchanged. -/
def fround : FloatV → ℕ → FloatV
  | .fin x, n => .fin (pyRound x n)
  | v, _ => v

/-- Python `int()` truncation toward zero of a float64 value (the
non-finite cases are never reached by the program's guarded use). -/
def pyInt : FloatV → ℤ
  | .fin x => if 0 ≤ x then ⌊x⌋ else -⌊-x⌋
  | _ => 0

/-- Python float floor division `x // y` (`math.floor` of the quotient,
returned as a float; a finite value floor-divided by an infinity follows the
CPython results `x // inf = 0.0` for `x ≥ 0` and `-1.0` for `x < 0`). -/
def ffloordiv : FloatV → FloatV → FloatV
  | .nan, _ => .nan
  | _, .nan => .nan
  | .fin x, .fin y => if y = 0 then .nan else .fin ((⌊x / y⌋ : ℤ) : ℝ)
  | .fin x, .inf => if 0 ≤ x then .fin 0 else .fin (-1)
  | .fin x, .ninf => if 0 ≤ x then .fin (-1) else .fin 0
  | .inf, _ => .nan
  | .ninf, _ => .nan

/-- src/sourcecode.py line 113:
`int(user_liquidity // (call_price * 100)) if call_price > 0 else 0`. -/
def affordable (liq : ℝ) (cp : FloatV) : ℤ :=
  if fgt cp (.fin 0) then pyInt (ffloordiv (.fin liq) (fmul cp (.fin 100))) else 0

/-- One entry of `results` (the dict appended at lines 115-123): prices
rounded to 2 decimals, volatility and Greeks to 4, plus the contract
count. -/
structure Row where
  ticker : String
  price : FloatV
  volatility : FloatV
  callPrice : FloatV
  delta : FloatV
  vega : FloatV
  contracts : ℤ

/-- The dict construction of lines 113-123 as a function of the computed
per-symbol quantities: `Price: round(S, 2)`, `Volatility: round(sigma, 4)`,
`Call Price: round(call_price, 2)`, `Delta: round(delta, 4)`,
`Vega: round(vega, 4)`, and the affordability count computed from the
unrounded `call_price`. -/
def mkRow (t : String) (S : ℝ) (sigma cp delta vega : FloatV) (liq : ℝ) : Row :=
  { ticker := t
    price := fround (.fin S) 2
    volatility := fround sigma 4
    callPrice := fround cp 2
    delta := fround delta 4
    vega := fround vega 4
    contracts := affordable liq cp }

/-- The column `sort_values(by='Call Price', ...)` compares (line 131): the
stored `Call Price` field of a row. -/
def sortKey (r : Row) : FloatV := r.callPrice

/-- One success iteration of the main loop (lines 109-123):
`S = df['adj_close'].iloc[-1]`, `sigma = calculate_volatility(df)`,
`black_scholes_call(S, S, T, risk_free_rate, sigma)`, then the appended
row. -/
def buildRow (t : String) (df : Frame) (rate T liq : ℝ) : Row :=
  let S := df.adj_close.getLastD 0
  let sigma := (calculate_volatility df).2
  let q := black_scholes_call (.fin S) (.fin S) (.fin T) (.fin rate) sigma
  mkRow t S sigma q.1 q.2.1 q.2.2 liq

/-- The screening loop of `main` (lines 101-125): iterate over
`tickers[:selected_count]`; fetch each symbol's frame (the provider returns
`none` on unavailability); append a row only when the frame is present with
at least 30 observations; `T = 30/365`.  The pacing delay and progress bar
are presentation-side effects with no influence on the accumulated list. -/
def run (tickers : List String) (count : ℕ) (fetch : String → Option Frame)
    (rate liq : ℝ) : List Row :=
  (tickers.take count).foldl
    (fun acc t =>
      match fetch t with
      | some df =>
          if 30 ≤ df.adj_close.length then acc ++ [buildRow t df rate (30 / 365) liq] else acc
      | none => acc)
    []

/-! ### Reduction lemmas for the float64 operations -/

@[simp] theorem fadd_fin_fin (x y : ℝ) : fadd (.fin x) (.fin y) = .fin (x + y) := rfl

@[simp] theorem fneg_fin (x : ℝ) : fneg (.fin x) = .fin (-x) := rfl

@[simp] theorem fsub_fin_fin (x y : ℝ) : fsub (.fin x) (.fin y) = .fin (x - y) := by
  simp [fsub, fadd, fneg, sub_eq_add_neg]

@[simp] theorem fmul_fin_fin (x y : ℝ) : fmul (.fin x) (.fin y) = .fin (x * y) := rfl

@[simp] theorem fsq_fin (x : ℝ) : fsq (.fin x) = .fin (x ^ 2) := rfl

@[simp] theorem fexp_fin (x : ℝ) : fexp (.fin x) = .fin (Real.exp x) := rfl

@[simp] theorem fcdf_fin (x : ℝ) : fcdf (.fin x) = .fin (Phi x) := rfl

@[simp] theorem fpdf_fin (x : ℝ) : fpdf (.fin x) = .fin (phiPDF x) := rfl

theorem fdiv_fin_fin (x y : ℝ) (hy : y ≠ 0) : fdiv (.fin x) (.fin y) = .fin (x / y) := by
  simp [fdiv, hy]

theorem fdiv_fin_zero_pos (x : ℝ) (hx : 0 < x) : fdiv (.fin x) (.fin 0) = .inf := by
  simp [fdiv, hx.ne', hx]

theorem flog_fin_pos (x : ℝ) (hx : 0 < x) : flog (.fin x) = .fin (Real.log x) := by
  simp [flog, hx]

theorem fsqrt_fin (x : ℝ) (hx : 0 ≤ x) : fsqrt (.fin x) = .fin (Real.sqrt x) := by
  simp [fsqrt, hx]

@[simp] theorem fcdf_inf : fcdf .inf = .fin 1 := rfl

@[simp] theorem fpdf_inf : fpdf .inf = .fin 0 := rfl

@[simp] theorem fsub_inf_fin (y : ℝ) : fsub .inf (.fin y) = .inf := rfl

/-! ### Claim C9: rate-provider fallback -/

/-- Claim C9: whenever the risk-free-rate provider signals unavailability,
the rate fetch returns the fixed default 0.05 together with a (nonempty)
user-visible warning, and returns normally, so the run proceeds. -/
theorem rate_fallback_on_unavailable :
    fetch_risk_free_rate .unavailable
      = (["Failed to fetch risk-free rate from FRED API."], 0.05)
    ∧ (fetch_risk_free_rate .unavailable).1 ≠ [] := by
  exact ⟨rfl, by simp [fetch_risk_free_rate]⟩

/-! ### Claim C10: the volatility estimator mutates its input frame -/

theorem shiftRatios_length (p : List ℝ) : (shiftRatios p).length = p.length := by
  cases p with
  | nil => rfl
  | cons a ps => simp [shiftRatios]

/-- Claim C10: `calculate_volatility` mutates the price frame passed to it
(modelled by returning the updated frame): afterwards the frame carries a
`log_return` column of the same length as the price column, while the
`adj_close` values are unchanged. -/
theorem volatility_mutates_frame (df : Frame) :
    (calculate_volatility df).1.adj_close = df.adj_close
    ∧ (calculate_volatility df).1.log_return
        = some ((shiftRatios df.adj_close).map flog)
    ∧ ∀ col, (calculate_volatility df).1.log_return = some col →
        col.length = df.adj_close.length := by
  refine ⟨rfl, rfl, ?_⟩
  intro col hcol
  simp only [calculate_volatility, Option.some.injEq] at hcol
  rw [← hcol]
  simp [shiftRatios_length]

/-- Concrete instance of the C10 mutation statement. -/
theorem volatility_mutates_frame_witness :
    (calculate_volatility { adj_close := [3, 4] }).1.adj_close = ([3, 4] : List ℝ)
    ∧ (calculate_volatility { adj_close := [3, 4] }).1.log_return
        = some ((shiftRatios [3, 4]).map flog)
    ∧ ∀ col,
        (calculate_volatility { adj_close := [3, 4] }).1.log_return = some col →
        col.length = ([3, 4] : List ℝ).length :=
  volatility_mutates_frame { adj_close := [3, 4] }

/-! ### Claim C4: the affordability calculator -/

theorem pyInt_intCast (k : ℤ) : pyInt (.fin (k : ℝ)) = k := by
  rw [pyInt]
  split_ifs with h
  · exact Int.floor_intCast k
  · rw [← Int.cast_neg, Int.floor_intCast, neg_neg]

theorem affordable_pos (c p : ℝ) (hp : 0 < p) :
    affordable c (.fin p) = ⌊c / (p * 100)⌋ := by
  have h100 : p * 100 ≠ 0 := by positivity
  rw [affordable, if_pos (by simp [fgt, hp]), fmul_fin_fin]
  rw [ffloordiv]
  rw [if_neg h100, pyInt_intCast]

theorem affordable_nonpos (c p : ℝ) (hp : p ≤ 0) : affordable c (.fin p) = 0 := by
  rw [affordable, if_neg]
  simp [fgt, not_lt.mpr hp]

/-- Claim C4: for capital `c ≥ 0`, the affordability computation of line 113
returns `⌊c / (100 p)⌋` when the call price `p` is positive, exactly 0 when
`p ≤ 0`, is never negative, and is non-decreasing in `c` for fixed `p`. -/
theorem affordable_spec (c p : ℝ) (hc : 0 ≤ c) :
    (0 < p → affordable c (.fin p) = ⌊c / (100 * p)⌋)
    ∧ (p ≤ 0 → affordable c (.fin p) = 0)
    ∧ 0 ≤ affordable c (.fin p)
    ∧ ∀ c', c ≤ c' → affordable c (.fin p) ≤ affordable c' (.fin p) := by
  refine ⟨fun hp => ?_, fun hp => affordable_nonpos c p hp, ?_, fun c' hcc => ?_⟩
  · rw [affordable_pos c p hp, mul_comm p 100]
  · by_cases hp : 0 < p
    · rw [affordable_pos c p hp]
      exact Int.floor_nonneg.mpr (by positivity)
    · rw [affordable_nonpos c p (not_lt.mp hp)]
  · by_cases hp : 0 < p
    · rw [affordable_pos c p hp, affordable_pos c' p hp]
      have hd : 0 < p * 100 := by positivity
      exact Int.floor_le_floor (by gcongr)
    · rw [affordable_nonpos c p (not_lt.mp hp), affordable_nonpos c' p (not_lt.mp hp)]

/-- Witness for C4 at the spec's own example: price 2.50, capital 1000. -/
theorem affordable_spec_witness :
    (0 ≤ (1000 : ℝ))
    ∧ ((0 < (5 / 2 : ℝ) → affordable 1000 (.fin (5 / 2)) = ⌊(1000 : ℝ) / (100 * (5 / 2))⌋)
      ∧ ((5 / 2 : ℝ) ≤ 0 → affordable 1000 (.fin (5 / 2)) = 0)
      ∧ 0 ≤ affordable 1000 (.fin (5 / 2))
      ∧ ∀ c', (1000 : ℝ) ≤ c' →
          affordable 1000 (.fin (5 / 2)) ≤ affordable c' (.fin (5 / 2))) :=
  ⟨by norm_num, affordable_spec 1000 (5 / 2) (by norm_num)⟩

/-! ### Claim C5: the estimator's value on series shorter than 2 -/

/-- Counterexample to C5 as stated: on a one-point series the estimator
returns the float64 NaN — a numeric value flowing out of `Series.std()` —
rather than signalling an `InsufficientData` error (no error channel exists
in `calculate_volatility` at all; its result type is a plain value). -/
theorem volatility_single_point_nan :
    (calculate_volatility { adj_close := [100] }).2 = FloatV.nan := by
  simp [calculate_volatility, shiftRatios, seriesStd, flog, isNaN, fmul]

/-- Amended C5: for every price series with fewer than 2 observations the
estimator returns the float64 NaN (pandas `std` of fewer than two
observations), not an error signal. -/
theorem volatility_short_series_nan (df : Frame) (h : df.adj_close.length < 2) :
    (calculate_volatility df).2 = FloatV.nan := by
  obtain ⟨p, lr⟩ := df
  match p, h with
  | [], _ => simp [calculate_volatility, shiftRatios, seriesStd, fmul]
  | [a], _ => simp [calculate_volatility, shiftRatios, seriesStd, flog, isNaN, fmul]

/-- Witness for the amended C5 on the empty-frame instance `[7]`. -/
theorem volatility_short_series_nan_witness :
    ({ adj_close := [7] } : Frame).adj_close.length < 2
    ∧ (calculate_volatility { adj_close := [7] }).2 = FloatV.nan :=
  ⟨by simp, volatility_short_series_nan { adj_close := [7] } (by simp)⟩

/-! ### Claim C6: the screening pipeline's skip and count behaviour -/

theorem run_foldl_aux (fetch : String → Option Frame) (rate liq : ℝ)
    (l : List String) (acc : List Row) :
    l.foldl
      (fun acc t =>
        match fetch t with
        | some df =>
            if 30 ≤ df.adj_close.length then acc ++ [buildRow t df rate (30 / 365) liq]
            else acc
        | none => acc)
      acc
    = acc ++ l.filterMap (fun t =>
        match fetch t with
        | some df =>
            if 30 ≤ df.adj_close.length then some (buildRow t df rate (30 / 365) liq)
            else none
        | none => none) := by
  induction l generalizing acc with
  | nil => simp
  | cons t ts ih =>
    simp only [List.foldl_cons, List.filterMap_cons]
    cases h : fetch t with
    | none => rw [ih]
    | some df =>
      by_cases h30 : 30 ≤ df.adj_close.length
      · simp only [h30, if_pos, ih, List.append_assoc, List.singleton_append]
      · simp only [h30, if_neg, ih, if_false]

theorem buildRow_ticker (t : String) (df : Frame) (rate T liq : ℝ) :
    (buildRow t df rate T liq).ticker = t := rfl

/-- Claim C6: the run iterates over exactly the first `count` symbols of the
universe (all of it when it is shorter); the result list consists of exactly
the rows of the symbols whose series is available with at least 30
observations (in order); and a symbol whose series is unavailable or shorter
than 30 contributes no row.  `run` is a total function, so no per-symbol
outcome can abort it. -/
theorem run_processes_first_count (tickers : List String) (count : ℕ)
    (fetch : String → Option Frame) (rate liq : ℝ) :
    (tickers.take count).length = min count tickers.length
    ∧ run tickers count fetch rate liq
        = (tickers.take count).filterMap (fun t =>
            match fetch t with
            | some df =>
                if 30 ≤ df.adj_close.length
                then some (buildRow t df rate (30 / 365) liq) else none
            | none => none)
    ∧ ∀ t : String,
        (fetch t = none ∨ ∃ df, fetch t = some df ∧ df.adj_close.length < 30) →
        ∀ row ∈ run tickers count fetch rate liq, row.ticker ≠ t := by
  refine ⟨List.length_take count tickers, ?_, ?_⟩
  · rw [run, run_foldl_aux, List.nil_append]
  · intro t ht row hrow
    rw [run, run_foldl_aux, List.nil_append] at hrow
    rw [List.mem_filterMap] at hrow
    obtain ⟨t', _, ht'⟩ := hrow
    cases hf : fetch t' with
    | none => rw [hf] at ht'; exact absurd ht' (by simp)
    | some df =>
      rw [hf] at ht'
      have ht'' :
          (if 30 ≤ df.adj_close.length
            then some (buildRow t' df rate (30 / 365) liq) else none) = some row := ht'
      by_cases h30 : 30 ≤ df.adj_close.length
      · rw [if_pos h30] at ht''
        have hticker : row.ticker = t' := by
          cases ht''
          · exact buildRow_ticker t' df rate (30 / 365) liq
        intro hEq
        rw [hticker] at hEq
        subst hEq
        rcases ht with hnone | ⟨df', hdf', hlen⟩
        · rw [hf] at hnone; cases hnone
        · rw [hf] at hdf'
          cases hdf'
          omega
      · rw [if_neg h30] at ht''
        cases ht''

/-- Witness for C6: three tickers, two requested, every fetch unavailable —
the run yields no rows and skips both processed symbols. -/
theorem run_processes_first_count_witness :
    ((["A", "B", "C"] : List String).take 2).length
      = min 2 (["A", "B", "C"] : List String).length
    ∧ run ["A", "B", "C"] 2 (fun _ => none) 0 0
        = ((["A", "B", "C"] : List String).take 2).filterMap (fun t =>
            match (fun _ : String => (none : Option Frame)) t with
            | some df =>
                if 30 ≤ df.adj_close.length
                then some (buildRow t df 0 (30 / 365) 0) else none
            | none => none)
    ∧ ∀ t : String,
        ((fun _ : String => (none : Option Frame)) t = none
          ∨ ∃ df, (fun _ : String => (none : Option Frame)) t = some df
              ∧ df.adj_close.length < 30) →
        ∀ row ∈ run ["A", "B", "C"] 2 (fun _ => none) 0 0, row.ticker ≠ t :=
  run_processes_first_count ["A", "B", "C"] 2 (fun _ => none) 0 0

/-! ### Claim C2: rounding happens before the ranking, not after -/

theorem roundHalfEven_of_lt_half (x : ℝ) (k : ℤ) (h1 : (k : ℝ) ≤ x)
    (h2 : x < k + 1 / 2) : roundHalfEven x = k := by
  have hfl : ⌊x⌋ = k := by
    rw [Int.floor_eq_iff]
    constructor
    · exact h1
    · linarith
  have hfr : Int.fract x ≠ 1 / 2 := by
    rw [Int.fract, hfl]
    intro hc
    have : x = (k : ℝ) + 1 / 2 := by linarith
    linarith
  rw [roundHalfEven, if_neg hfr, round_eq]
  rw [Int.floor_eq_iff]
  constructor
  · linarith
  · linarith

theorem pyRound_eq (x : ℝ) (n : ℕ) (k : ℤ) (h1 : (k : ℝ) ≤ x * 10 ^ n)
    (h2 : x * 10 ^ n < k + 1 / 2) : pyRound x n = (k : ℝ) / 10 ^ n := by
  rw [pyRound, roundHalfEven_of_lt_half (x * 10 ^ n) k h1 h2]

/-- Counterexample to C2 as stated: for a row built from the full-precision
call price 2.004 (= 501/250), the value stored in the row — the `Call Price`
column that `sort_values(by='Call Price')` compares — is the rounded 2.00,
not the full-precision price.  Rounding to 2 decimals is applied at row
construction (line 119), before the sort of line 131, so the ranking does
not compare full-precision prices. -/
theorem leaderboard_key_is_rounded :
    sortKey (mkRow ("AAA") 100 (.fin (1 / 5)) (.fin (501 / 250)) (.fin (3 / 5))
        (.fin 1) 1000)
      = .fin 2
    ∧ FloatV.fin 2 ≠ .fin (501 / 250) := by
  constructor
  · show fround (.fin (501 / 250)) 2 = .fin 2
    rw [fround]
    have h : pyRound (501 / 250) 2 = ((200 : ℤ) : ℝ) / 10 ^ 2 :=
      pyRound_eq (501 / 250) 2 200 (by norm_num) (by norm_num)
    rw [h]
    norm_num
  · intro hc
    rw [FloatV.fin.injEq] at hc
    norm_num at hc

/-- Amended C2: the `Call Price` value a row carries into the sort is the
2-decimal rounding of the pricer's output, so the ranking key of a row is
determined by the rounded price alone: two rows whose full-precision prices
round alike have equal sort keys. -/
theorem leaderboard_key_rounded_before_sort (t₁ t₂ : String) (S : ℝ)
    (sig d v cp₁ cp₂ : FloatV) (liq₁ liq₂ : ℝ)
    (h : fround cp₁ 2 = fround cp₂ 2) :
    sortKey (mkRow t₁ S sig cp₁ d v liq₁) = sortKey (mkRow t₂ S sig cp₂ d v liq₂) := by
  show fround cp₁ 2 = fround cp₂ 2
  exact h

/-- Witness for the amended C2: full-precision prices 3 and 3.004 share the
rounded key 3.00 and hence the same position key in the sort. -/
theorem leaderboard_key_rounded_before_sort_witness :
    fround (.fin 3) 2 = fround (.fin (751 / 250)) 2
    ∧ sortKey (mkRow ("X1") 10 (.fin 1) (.fin 3) (.fin 1) (.fin 1) 500)
        = sortKey (mkRow ("X2") 10 (.fin 1) (.fin (751 / 250)) (.fin 1) (.fin 1) 600) := by
  have h : fround (FloatV.fin 3) 2 = fround (.fin (751 / 250)) 2 := by
    rw [fround, fround]
    have h3 : pyRound 3 2 = ((300 : ℤ) : ℝ) / 10 ^ 2 :=
      pyRound_eq 3 2 300 (by norm_num) (by norm_num)
    have h4 : pyRound (751 / 250) 2 = ((300 : ℤ) : ℝ) / 10 ^ 2 :=
      pyRound_eq (751 / 250) 2 300 (by norm_num) (by norm_num)
    rw [h3, h4]
  exact ⟨h, leaderboard_key_rounded_before_sort ("X1") ("X2") 10 (.fin 1) (.fin 1)
    (.fin 1) (.fin 3) (.fin (751 / 250)) 500 600 h⟩

/-! ### Analytic facts about the standard normal distribution -/

theorem gauss_pos (t : ℝ) : 0 < gauss t := Real.exp_pos _

theorem gauss_integrable : Integrable gauss := by
  have h := integrable_exp_neg_mul_sq (b := 1 / 2) (by norm_num)
  exact h

theorem gauss_integrableOn (s : Set ℝ) : IntegrableOn gauss s :=
  gauss_integrable.integrableOn

theorem gauss_total : ∫ t : ℝ, gauss t = Real.sqrt (2 * Real.pi) := by
  have h := integral_gaussian (1 / 2)
  have h2 : Real.pi / (1 / 2) = 2 * Real.pi := by ring
  rw [h2] at h
  exact h

theorem sqrt_two_pi_pos : 0 < Real.sqrt (2 * Real.pi) :=
  Real.sqrt_pos.mpr (by positivity)

theorem integral_Iic_gauss_pos (x : ℝ) : 0 < ∫ t in Iic x, gauss t := by
  refine (setIntegral_pos_iff_support_of_nonneg_ae ?_ (gauss_integrableOn _)).mpr ?_
  · exact Filter.Eventually.of_forall fun t => (gauss_pos t).le
  · have hsupp : Function.support gauss = Set.univ := by
      ext t
      simp [Function.mem_support, (gauss_pos t).ne']
    rw [hsupp, Set.univ_inter, Real.volume_Iic]
    exact ENNReal.zero_lt_top

theorem integral_Ioi_gauss_pos (x : ℝ) : 0 < ∫ t in Ioi x, gauss t := by
  refine (setIntegral_pos_iff_support_of_nonneg_ae ?_ (gauss_integrableOn _)).mpr ?_
  · exact Filter.Eventually.of_forall fun t => (gauss_pos t).le
  · have hsupp : Function.support gauss = Set.univ := by
      ext t
      simp [Function.mem_support, (gauss_pos t).ne']
    rw [hsupp, Set.univ_inter, Real.volume_Ioi]
    exact ENNReal.zero_lt_top

theorem Phi_strictMono : StrictMono Phi := by
  intro x y hxy
  have hsub := intervalIntegral.integral_Iic_sub_Iic (μ := volume) (f := gauss)
    (gauss_integrableOn (Iic x)) (gauss_integrableOn (Iic y))
  have hpos : 0 < ∫ t in x..y, gauss t :=
    intervalIntegral_pos_of_pos gauss_integrable.intervalIntegrable gauss_pos hxy
  have hlt : (∫ t in Iic x, gauss t) < ∫ t in Iic y, gauss t := by linarith
  show (Real.sqrt (2 * Real.pi))⁻¹ * _ < (Real.sqrt (2 * Real.pi))⁻¹ * _
  exact mul_lt_mul_of_pos_left hlt (inv_pos.mpr sqrt_two_pi_pos)

theorem Phi_pos (x : ℝ) : 0 < Phi x :=
  mul_pos (inv_pos.mpr sqrt_two_pi_pos) (integral_Iic_gauss_pos x)

theorem Phi_lt_one (x : ℝ) : Phi x < 1 := by
  have hsplit := intervalIntegral.integral_Iic_add_Ioi (μ := volume) (f := gauss)
    (gauss_integrableOn (Iic x)) (gauss_integrableOn (Ioi x))
  rw [gauss_total] at hsplit
  have h2 : (∫ t in Iic x, gauss t) < Real.sqrt (2 * Real.pi) := by
    have := integral_Ioi_gauss_pos x
    linarith
  have hlt : Phi x < (Real.sqrt (2 * Real.pi))⁻¹ * Real.sqrt (2 * Real.pi) :=
    mul_lt_mul_of_pos_left h2 (inv_pos.mpr sqrt_two_pi_pos)
  rwa [inv_mul_cancel₀ sqrt_two_pi_pos.ne'] at hlt

theorem Phi_zero : Phi 0 = 1 / 2 := by
  have hIoi : ∫ t in Ioi (0 : ℝ), gauss t = Real.sqrt (2 * Real.pi) / 2 := by
    have h := integral_gaussian_Ioi (1 / 2)
    have h2 : Real.pi / (1 / 2) = 2 * Real.pi := by ring
    rw [h2] at h
    exact h
  have hsplit := intervalIntegral.integral_Iic_add_Ioi (μ := volume) (f := gauss)
    (gauss_integrableOn (Iic 0)) (gauss_integrableOn (Ioi 0))
  rw [gauss_total, hIoi] at hsplit
  have hIic : ∫ t in Iic (0 : ℝ), gauss t = Real.sqrt (2 * Real.pi) / 2 := by
    linarith
  show (Real.sqrt (2 * Real.pi))⁻¹ * _ = 1 / 2
  rw [hIic]
  field_simp

/-! ### The pricer on the all-finite path -/

theorem black_scholes_call_fin (S K T r sigma : ℝ)
    (hS : 0 < S) (hK : 0 < K) (hT : 0 < T) (hsig : 0 < sigma) :
    black_scholes_call (.fin S) (.fin K) (.fin T) (.fin r) (.fin sigma)
      = (.fin (callR S K T r sigma), .fin (Phi (d1R S K T r sigma)),
          .fin (vegaR S K T r sigma)) := by
  have hK0 : K ≠ 0 := hK.ne'
  have hSK : 0 < S / K := div_pos hS hK
  have hden : sigma * Real.sqrt T ≠ 0 :=
    mul_ne_zero hsig.ne' (Real.sqrt_pos.mpr hT).ne'
  simp only [black_scholes_call]
  rw [fdiv_fin_fin S K hK0, flog_fin_pos (S / K) hSK, fsqrt_fin T hT.le]
  simp only [fsq_fin, fmul_fin_fin, fadd_fin_fin]
  rw [fdiv_fin_fin _ _ hden]
  simp only [fcdf_fin, fpdf_fin, fneg_fin, fexp_fin, fmul_fin_fin, fsub_fin_fin]
  simp only [callR, d1R, d2R, vegaR]

/-! ### Claim C8: pricer sanity at the at-the-money benchmark point -/

/-- Claim C8: at S = K = 100, T = 30/365, r = 0.05, sigma = 0.20, the pricer
returns finite values; the call price lies strictly between 0 and 100 and
delta lies strictly between 0.5 and 1. -/
theorem pricer_sanity_atm :
    black_scholes_call (.fin 100) (.fin 100) (.fin (30 / 365)) (.fin 0.05) (.fin 0.2)
      = (.fin (callR 100 100 (30 / 365) 0.05 0.2),
          .fin (Phi (d1R 100 100 (30 / 365) 0.05 0.2)),
          .fin (vegaR 100 100 (30 / 365) 0.05 0.2))
    ∧ 0 < callR 100 100 (30 / 365) 0.05 0.2
    ∧ callR 100 100 (30 / 365) 0.05 0.2 < 100
    ∧ 1 / 2 < Phi (d1R 100 100 (30 / 365) 0.05 0.2)
    ∧ Phi (d1R 100 100 (30 / 365) 0.05 0.2) < 1 := by
  have heq := black_scholes_call_fin 100 100 (30 / 365) 0.05 0.2
    (by norm_num) (by norm_num) (by norm_num) (by norm_num)
  have hsqrtpos : 0 < Real.sqrt (30 / 365) := Real.sqrt_pos.mpr (by norm_num)
  have hd1pos : 0 < d1R 100 100 (30 / 365) 0.05 0.2 := by
    rw [d1R]
    have hlog : Real.log ((100 : ℝ) / 100) = 0 := by norm_num [Real.log_one]
    rw [hlog]
    apply div_pos
    · norm_num
    · positivity
  have hd2lt : d2R 100 100 (30 / 365) 0.05 0.2 < d1R 100 100 (30 / 365) 0.05 0.2 := by
    rw [d2R]
    have : (0 : ℝ) < 0.2 * Real.sqrt (30 / 365) := by positivity
    linarith
  have hPhi2pos := Phi_pos (d2R 100 100 (30 / 365) 0.05 0.2)
  have hPhi1lt := Phi_lt_one (d1R 100 100 (30 / 365) 0.05 0.2)
  have hPhimono := Phi_strictMono hd2lt
  have hexplt : Real.exp (-(0.05 : ℝ) * (30 / 365)) < 1 := by
    rw [Real.exp_lt_one_iff]
    norm_num
  have hexppos : (0 : ℝ) < Real.exp (-(0.05 : ℝ) * (30 / 365)) := Real.exp_pos _
  refine ⟨heq, ?_, ?_, ?_, hPhi1lt⟩
  · rw [callR]
    have h1 : Real.exp (-(0.05 : ℝ) * (30 / 365)) * Phi (d2R 100 100 (30 / 365) 0.05 0.2)
        < Phi (d2R 100 100 (30 / 365) 0.05 0.2) := by
      nlinarith
    nlinarith
  · rw [callR]
    have h1 : (100 : ℝ) * Phi (d1R 100 100 (30 / 365) 0.05 0.2) < 100 * 1 := by
      nlinarith
    nlinarith
  · have := Phi_strictMono hd1pos
    rwa [Phi_zero] at this

/-! ### Claim C1: no degenerate-input guard in the pricer -/

/-- Counterexample to C1 as stated: called with sigma = 0 and T = 0 (both
degenerate in the claim's sense, S = K = 100, r = 0.05), the pricer performs
the unguarded division `0/0`, and returns NaN for the price, delta and vega
— it returns a non-finite float rather than signalling `DegenerateInputs` or
falling back to an intrinsic value. -/
theorem pricer_degenerate_nan :
    black_scholes_call (.fin 100) (.fin 100) (.fin 0) (.fin 0.05) (.fin 0)
      = (.nan, .nan, .nan) := by
  norm_num [black_scholes_call, fdiv, flog, fsqrt, fsq, fmul, fadd, fneg, fexp,
    fcdf, fpdf, fsub, Real.sqrt_zero, Real.log_one]

/-- Amended C1: the pricer has no degenerate-input guard; it evaluates the
formula under float64 semantics.  With sigma = 0, T > 0, S = K and r > 0 the
unguarded division yields d1 = +inf, so the pricer returns the finite values
`(S - S·exp(-rT), 1, 0)` — no NaN or Infinity is returned, but neither is a
`DegenerateInputs` signal raised nor the intrinsic-value fallback
`max (S - K) 0` returned (the returned price is strictly above it). -/
theorem pricer_sigma_zero_limit (S T r : ℝ) (hS : 0 < S) (hT : 0 < T) (hr : 0 < r) :
    black_scholes_call (.fin S) (.fin S) (.fin T) (.fin r) (.fin 0)
      = (.fin (S - S * Real.exp (-r * T)), .fin 1, .fin 0)
    ∧ S - S * Real.exp (-r * T) ≠ max (S - S) 0 := by
  have hrT : 0 < r * T := mul_pos hr hT
  constructor
  · simp only [black_scholes_call]
    rw [fdiv_fin_fin S S hS.ne', div_self hS.ne', flog_fin_pos 1 one_pos,
      Real.log_one, fsqrt_fin T hT.le]
    simp only [fsq_fin, fmul_fin_fin, fadd_fin_fin, zero_mul]
    have hnum : (0 : ℝ) + (r + 0.5 * 0 ^ 2) * T = r * T := by ring
    rw [hnum, fdiv_fin_zero_pos (r * T) hrT]
    simp only [fsub_inf_fin, fcdf_inf, fpdf_inf, fneg_fin, fexp_fin, fmul_fin_fin,
      fsub_fin_fin, mul_one, mul_zero, zero_mul]
  · have hexplt : Real.exp (-r * T) < 1 := by
      rw [Real.exp_lt_one_iff]
      nlinarith
    have : S * Real.exp (-r * T) < S * 1 := by
      exact mul_lt_mul_of_pos_left hexplt hS
    rw [sub_self, max_self]
    nlinarith

/-- Witness for the amended C1 at S = 1, T = 1, r = 1. -/
theorem pricer_sigma_zero_limit_witness :
    (0 : ℝ) < 1
    ∧ (black_scholes_call (.fin 1) (.fin 1) (.fin 1) (.fin 1) (.fin 0)
        = (.fin (1 - 1 * Real.exp (-1 * 1)), .fin 1, .fin 0)
      ∧ (1 : ℝ) - 1 * Real.exp (-1 * 1) ≠ max (1 - 1) 0) :=
  ⟨by norm_num, pricer_sigma_zero_limit 1 1 1 (by norm_num) (by norm_num) (by norm_num)⟩

/-! ### Claim C7: the volatility estimator's formula -/

theorem list_sum_zero (xs : List ℝ) (h : ∀ x ∈ xs, x = 0) : xs.sum = 0 := by
  induction xs with
  | nil => rfl
  | cons a l ih =>
    rw [List.sum_cons, h a (List.mem_cons_self a l), zero_add]
    exact ih fun x hx => h x (List.mem_cons_of_mem a hx)

theorem sampleStdR_zero (xs : List ℝ) (h : ∀ x ∈ xs, x = 0) : sampleStdR xs = 0 := by
  have hmean : meanR xs = 0 := by
    rw [meanR, list_sum_zero xs h, zero_div]
  have hsq : (xs.map (fun x => (x - meanR xs) ^ 2)).sum = 0 := by
    apply list_sum_zero
    intro y hy
    obtain ⟨x, hx, rfl⟩ := List.mem_map.mp hy
    rw [h x hx, hmean, sub_zero]
    norm_num
  rw [sampleStdR, hsq, zero_div, Real.sqrt_zero]

theorem logReturnsR_length (p : List ℝ) : (logReturnsR p).length = p.length - 1 := by
  cases p with
  | nil => rfl
  | cons a ps => simp [logReturnsR, List.length_zip]

theorem volatility_column (a : ℝ) (ps : List ℝ) (hpos : ∀ x ∈ a :: ps, 0 < x) :
    (shiftRatios (a :: ps)).map flog
      = .nan :: (logReturnsR (a :: ps)).map FloatV.fin := by
  simp only [shiftRatios, logReturnsR, List.tail_cons, List.map_cons, List.map_map]
  congr 1
  apply List.map_congr_left
  intro ab hab
  obtain ⟨ha, hb⟩ := List.of_mem_zip hab
  have hapos : 0 < ab.1 := hpos _ ha
  have hbpos : 0 < ab.2 := hpos _ (List.mem_cons_of_mem a hb)
  show flog (fdiv (.fin ab.2) (.fin ab.1)) = FloatV.fin (Real.log (ab.2 / ab.1))
  rw [fdiv_fin_fin _ _ hapos.ne', flog_fin_pos _ (div_pos hbpos hapos)]

theorem seriesStd_fin_column (rs : List ℝ) (h2 : 2 ≤ rs.length) :
    seriesStd (.nan :: rs.map FloatV.fin) = .fin (sampleStdR rs) := by
  have hfilter : (FloatV.nan :: rs.map FloatV.fin).filter (fun a => !(isNaN a))
      = rs.map FloatV.fin := by
    rw [List.filter_cons]
    have hhead : (!(FloatV.nan.isNaN)) = false := rfl
    rw [hhead, if_neg Bool.false_ne_true]
    apply List.filter_eq_self.mpr
    intro b hb
    obtain ⟨x, _, rfl⟩ := List.mem_map.mp hb
    rfl
  have hall : (rs.map FloatV.fin).all isFin = true := by
    apply List.all_eq_true.mpr
    intro b hb
    obtain ⟨x, _, rfl⟩ := List.mem_map.mp hb
    rfl
  have hlen : ¬((rs.map FloatV.fin).length < 2) := by
    rw [List.length_map]
    omega
  rw [seriesStd]
  simp only [hfilter, hlen, if_false, hall, if_true]
  congr 1
  congr 1
  rw [List.map_map]
  have : (rs.map (toRealD ∘ FloatV.fin)) = rs.map id := by
    apply List.map_congr_left
    intro x _
    rfl
  rw [this, List.map_id]

/-- Counterexample to C7 as stated: the constant two-point series
`[100, 100]` has at least 2 observations, so the claim requires the sample
standard deviation of its single log return times √252 — in particular
σ = 0 exactly for this constant series — but the code returns NaN (pandas
`std` with `ddof = 1` of a single return). -/
theorem volatility_two_points_nan :
    (calculate_volatility { adj_close := [100, 100] }).2 = FloatV.nan
    ∧ FloatV.nan ≠ FloatV.fin 0 := by
  constructor
  · norm_num [calculate_volatility, shiftRatios, seriesStd, flog, fdiv, isNaN, fmul,
      List.filter_cons]
  · intro hc
    cases hc

/-- Amended C7: for every price series with at least 3 observations and
positive prices, the estimator returns exactly the sample standard deviation
(ddof = 1) of the daily log returns times √252; in particular a constant
positive series of length ≥ 3 yields exactly 0.  (With exactly 2
observations the code returns NaN instead — see the counterexample.) -/
theorem volatility_formula (p : List ℝ) (h3 : 3 ≤ p.length) (hpos : ∀ x ∈ p, 0 < x) :
    (calculate_volatility { adj_close := p }).2
      = .fin (sampleStdR (logReturnsR p) * Real.sqrt 252)
    ∧ ∀ c : ℝ, (∀ x ∈ p, x = c) →
        (calculate_volatility { adj_close := p }).2 = .fin 0 := by
  obtain ⟨a, ps, rfl⟩ : ∃ a ps, p = a :: ps := by
    cases p with
    | nil => simp at h3
    | cons a ps => exact ⟨a, ps, rfl⟩
  have hcol := volatility_column a ps hpos
  have hlen : 2 ≤ (logReturnsR (a :: ps)).length := by
    rw [logReturnsR_length]
    simp only [List.length_cons] at h3 ⊢
    omega
  have hmain : (calculate_volatility { adj_close := a :: ps }).2
      = .fin (sampleStdR (logReturnsR (a :: ps)) * Real.sqrt 252) := by
    show fmul (seriesStd ((shiftRatios (a :: ps)).map flog)) (.fin (Real.sqrt 252))
      = .fin (sampleStdR (logReturnsR (a :: ps)) * Real.sqrt 252)
    rw [hcol, seriesStd_fin_column _ hlen, fmul_fin_fin]
  refine ⟨hmain, ?_⟩
  intro c hc
  have hc0 : (0 : ℝ) < c := by
    have h1 := hpos a (List.mem_cons_self a ps)
    have h2 := hc a (List.mem_cons_self a ps)
    rwa [h2] at h1
  have hzero : ∀ x ∈ logReturnsR (a :: ps), x = 0 := by
    intro x hx
    rw [logReturnsR] at hx
    obtain ⟨ab, hab, rfl⟩ := List.mem_map.mp hx
    obtain ⟨h1, h2⟩ := List.of_mem_zip hab
    rw [List.tail_cons] at h2
    rw [hc _ h1, hc _ (List.mem_cons_of_mem a h2), div_self hc0.ne', Real.log_one]
  rw [hmain, sampleStdR_zero _ hzero, zero_mul]

/-- Witness for the amended C7 on the constant series `[2, 2, 2]`. -/
theorem volatility_formula_witness :
    3 ≤ ([2, 2, 2] : List ℝ).length
    ∧ (∀ x ∈ ([2, 2, 2] : List ℝ), 0 < x)
    ∧ ((calculate_volatility { adj_close := [2, 2, 2] }).2
        = .fin (sampleStdR (logReturnsR [2, 2, 2]) * Real.sqrt 252)
      ∧ ∀ c : ℝ, (∀ x ∈ ([2, 2, 2] : List ℝ), x = c) →
          (calculate_volatility { adj_close := [2, 2, 2] }).2 = .fin 0) :=
  ⟨by norm_num, by norm_num, volatility_formula [2, 2, 2] (by norm_num) (by norm_num)⟩

end
